import Mathlib

/-!
Verification model of `scripts/convert_tiff_to_png.py`.

The script walks an input directory tree, converts every `.tif`/`.tiff`
file (case-insensitive) to a PNG in a mirrored output tree, optionally
skipping destinations that already exist, and prints a tally.

Modelling conventions:
* A path is its list of components (`List String`); rendering a path for a
  message joins components with "/".
* The filesystem is a list of entries, each a path tagged as regular file
  (with an abstract `Nat` content) or directory.  `Path.exists`,
  `Path.is_file` and `mkdir(parents=True, exist_ok=True)` are modelled on
  this list; `mkdir` fails exactly when a non-directory occupies a link of
  the parent chain, creating nothing in that case (matching `os.makedirs`,
  which raises before creating anything below an existing file).
* `pathlib` string operations (`suffix`, `with_suffix`, `lower`) are
  reproduced on character lists, including the `rfind('.')` formula of
  `PurePath.suffix` and the replace-or-append behaviour of `with_suffix`.
* Pillow is an oracle (`PIL`): decoding, first-frame seeking, mode
  conversion and PNG encoding are opaque fallible functions.  `convert`
  always yields a `"RGB"`-mode image; a failed encode is taken to leave no
  destination file (the spec leaves partial files unspecified).
* `IN_DIR.rglob("*")` is modelled as the snapshot of all entries strictly
  below the input root; a root that exists as a non-directory has no
  entries below it and yields nothing (pathlib's glob suppresses the
  scandir error).  `SystemExit(msg)` is exit status 1 with `msg` printed.
* The model instruments ghost observations: which sources were opened,
  which image (if any) reached the encoder, whether a mode conversion
  happened, and a per-candidate event trace.
-/

namespace FAR

/-- A filesystem path, as its list of components. -/
abbrev Path := List String

/-- Rendering of a path in messages (components joined by "/"). -/
def pathStr (p : Path) : String :=
  String.intercalate "/" p

/-- Index of the last '.' in a character list (Python `str.rfind('.')`,
as an `Option`). -/
def rfindDot : List Char → Option Nat
  | [] => none
  | c :: rest =>
    match rfindDot rest with
    | some j => some (j + 1)
    | none => if c = '.' then some 0 else none

/-- `PurePath.suffix` on the characters of a name: the part from the last
dot, empty unless the dot is neither first nor last (`0 < i < len - 1`). -/
def suffixChars (cs : List Char) : List Char :=
  match rfindDot cs with
  | none => []
  | some i => if 0 < i ∧ i < cs.length - 1 then cs.drop i else []

/-- `PurePath.suffix` of a file name. -/
def nameSuffix (name : String) : String :=
  String.mk (suffixChars name.data)

/-- `PurePath.with_suffix` on characters: replace the suffix, or append
when there is none. -/
def withSuffixChars (cs suf : List Char) : List Char :=
  let old := suffixChars cs
  if old = [] then cs ++ suf else cs.take (cs.length - old.length) ++ suf

/-- `PurePath.with_suffix` of a file name. -/
def withSuffix (name suf : String) : String :=
  String.mk (withSuffixChars name.data suf.data)

/-- `src.suffix.lower() in (".tif", ".tiff")` for a file name. -/
def isTiffName (name : String) : Bool :=
  let l := String.mk ((suffixChars name.data).map Char.toLower)
  l == ".tif" || l == ".tiff"

/-- The candidate extension filter on a path (the suffix of its last
component, lowercased, is `.tif` or `.tiff`). -/
def isTiffPath (p : Path) : Bool :=
  match p.getLast? with
  | none => false
  | some name => isTiffName name

/-- One filesystem entry: a path that is a regular file (`isFile = true`,
with abstract content) or a directory. -/
structure Entry where
  path : Path
  isFile : Bool
  content : Nat
deriving DecidableEq, Repr

/-- A filesystem snapshot: the list of its entries. -/
structure FS where
  entries : List Entry
deriving DecidableEq, Repr

/-- `Path.exists()`: some entry lives at this path. -/
def FS.existsP (fs : FS) (p : Path) : Bool :=
  fs.entries.any (fun e => e.path == p)

/-- `Path.is_file()`: a regular file lives at this path. -/
def FS.isFile (fs : FS) (p : Path) : Bool :=
  fs.entries.any (fun e => e.path == p && e.isFile)

/-- `Path.is_dir()`: a directory lives at this path. -/
def FS.isDir (fs : FS) (p : Path) : Bool :=
  fs.entries.any (fun e => e.path == p && !e.isFile)

/-- Content of the regular file at a path, when there is one. -/
def FS.read? (fs : FS) (p : Path) : Option Nat :=
  (fs.entries.find? (fun e => e.path == p && e.isFile)).map Entry.content

/-- Write (create or replace) a regular file. -/
def FS.writeFile (fs : FS) (p : Path) (c : Nat) : FS :=
  ⟨⟨p, true, c⟩ :: fs.entries.filter (fun e => !(e.path == p))⟩

/-- The nonempty prefixes of a path, shortest first (the links of the
chain `mkdir(parents=True)` has to ensure). -/
def pathPrefixes (p : Path) : List Path :=
  (List.range p.length).map (fun k => p.take (k + 1))

/-- `mkdir(parents=True, exist_ok=True)` succeeds iff no link of the
chain exists as a regular file. -/
def mkdirOk (fs : FS) (d : Path) : Bool :=
  (pathPrefixes d).all (fun q => !fs.isFile q)

/-- Directory entries `mkdir(parents=True)` adds for the missing links. -/
def FS.addDirs (fs : FS) (d : Path) : FS :=
  ⟨((pathPrefixes d).filterMap
      (fun q => if fs.existsP q then none else some ⟨q, false, 0⟩)) ++ fs.entries⟩

/-- A decoded Pillow image: its mode string and abstract pixel data. -/
structure Image where
  mode : String
  payload : Nat
deriving DecidableEq, Repr

/-- The Pillow oracle: opaque fallible decoding, first-frame seeking,
mode conversion and PNG encoding.  `convertPayload` is the pixel data of
`im.convert("RGB")`; the converted image always has mode `"RGB"`. -/
structure PIL where
  openImg : Path → Except String Image
  seekFirst : Image → Except String Image
  convertPayload : Image → Except String Nat
  encodePNG : Image → Except String Nat

/-- Where inside `convert_one` an exception was raised. -/
inductive ConvStage
  | mkdirStage
  | openStage
  | modeStage
  | saveStage
deriving DecidableEq, Repr

/-- Result of one `convert_one` call: did it succeed, or at which stage
with which message did it raise. -/
inductive ConvOutcome
  | ok
  | err (stage : ConvStage) (msg : String)
deriving DecidableEq, Repr

/-- `convert_one`'s effect and ghost observations: the filesystem after
the call, the outcome, whether `Image.open(src)` was reached, the image
handed to the PNG encoder (if any), and whether `im.convert("RGB")` was
invoked. -/
structure ConvResult where
  fs : FS
  outcome : ConvOutcome
  opened : Bool
  encoded : Option Image
  modeConv : Bool
deriving DecidableEq, Repr

/-- `try: im.seek(0) except Exception: pass` — best-effort first frame. -/
def seekFirstFrame (pil : PIL) (im : Image) : Image :=
  match pil.seekFirst im with
  | .ok im2 => im2
  | .error _ => im

/-- `if im.mode not in ("RGB", "RGBA"): im = im.convert("RGB")`. -/
def normalizeMode (pil : PIL) (im : Image) : Except String Image :=
  if im.mode = "RGB" ∨ im.mode = "RGBA" then .ok im
  else (pil.convertPayload im).map (fun c => ⟨"RGB", c⟩)

/-- `convert_one(src, dst)`: ensure the parent chain, open, best-effort
seek to frame 0, normalize the mode, save as PNG. -/
def convert_one (pil : PIL) (fs : FS) (src dst : Path) : ConvResult :=
  if mkdirOk fs dst.dropLast then
    let fs1 := fs.addDirs dst.dropLast
    match pil.openImg src with
    | .error m => ⟨fs1, .err .openStage m, true, none, false⟩
    | .ok im0 =>
      let im1 := seekFirstFrame pil im0
      let mc := !(im1.mode == "RGB" || im1.mode == "RGBA")
      match normalizeMode pil im1 with
      | .error m => ⟨fs1, .err .modeStage m, true, none, mc⟩
      | .ok im2 =>
        match pil.encodePNG im2 with
        | .error m => ⟨fs1, .err .saveStage m, true, some im2, mc⟩
        | .ok png => ⟨fs1.writeFile dst png, .ok, true, some im2, mc⟩
  else ⟨fs, .err .mkdirStage "mkdir: parent chain blocked by a file", false, none, false⟩

/-- What happened to one candidate. -/
inductive Event
  | skipped (src dst : Path)
  | converted (src dst : Path)
  | failed (src dst : Path) (msg : String)
deriving DecidableEq, Repr

/-- `print(f"[FAIL] {src} -> {dst} | {e}")`. -/
def failLine (src dst : Path) (msg : String) : String :=
  "[FAIL] " ++ pathStr src ++ " -> " ++ pathStr dst ++ " | " ++ msg

/-- The loop state of `main`: current filesystem, the four counters, and
ghost traces (events, failure log lines, sources opened). -/
structure RunState where
  fs : FS
  total : Nat
  converted : Nat
  skipped : Nat
  failed : Nat
  events : List Event
  log : List String
  openedSrcs : List Path
deriving DecidableEq, Repr

/-- The constants of the script (`IN_DIR`, `OUT_DIR`, `SKIP_EXISTING`),
kept abstract so runs over any pair of roots can be stated. -/
structure Config where
  inRoot : Path
  outRoot : Path
  skipExisting : Bool

/-- `OUT_DIR / src.relative_to(IN_DIR).with_suffix(".png")`. -/
def destPath (inRoot outRoot p : Path) : Path :=
  let rel := p.drop inRoot.length
  match rel.getLast? with
  | none => outRoot
  | some name => outRoot ++ (rel.dropLast ++ [withSuffix name ".png"])

/-- The loop filter: a regular file whose extension matches. -/
def candB (e : Entry) : Bool :=
  e.isFile && isTiffPath e.path

/-- The body of `main`'s loop once the entry passed the filter. -/
def processCand (pil : PIL) (cfg : Config) (st : RunState) (e : Entry) : RunState :=
  let dst := destPath cfg.inRoot cfg.outRoot e.path
  if cfg.skipExisting && st.fs.existsP dst then
    { st with
      total := st.total + 1
      skipped := st.skipped + 1
      events := st.events ++ [.skipped e.path dst] }
  else
    let r := convert_one pil st.fs e.path dst
    match r.outcome with
    | .ok =>
      { st with
        fs := r.fs
        total := st.total + 1
        converted := st.converted + 1
        events := st.events ++ [.converted e.path dst]
        openedSrcs := st.openedSrcs ++ (if r.opened then [e.path] else []) }
    | .err _ m =>
      { st with
        fs := r.fs
        total := st.total + 1
        failed := st.failed + 1
        events := st.events ++ [.failed e.path dst m]
        log := st.log ++ [failLine e.path dst m]
        openedSrcs := st.openedSrcs ++ (if r.opened then [e.path] else []) }

/-- One iteration of `main`'s loop: `continue` on non-files and
non-matching extensions, otherwise process the candidate. -/
def processEntry (pil : PIL) (cfg : Config) (st : RunState) (e : Entry) : RunState :=
  if candB e then processCand pil cfg st e else st

/-- A path strictly below a root: the root's components are a proper
prefix of its components. -/
def underRoot (root p : Path) : Bool :=
  root.isPrefixOf p && decide (root.length < p.length)

/-- `IN_DIR.rglob("*")`: the entries strictly below the root, in
snapshot order. -/
def entriesUnder (fs : FS) (root : Path) : List Entry :=
  fs.entries.filter (fun e => underRoot root e.path)

/-- `raise SystemExit(f"[ERROR] Input dir not found: {IN_DIR.resolve()}")`. -/
def fatalMsg (root : Path) : String :=
  "[ERROR] Input dir not found: " ++ pathStr root

/-- Observable result of a whole run of `main`. -/
structure RunResult where
  fatal : Option String
  fs : FS
  total : Nat
  converted : Nat
  skipped : Nat
  failed : Nat
  events : List Event
  log : List String
  openedSrcs : List Path
  summaryEmitted : Bool
  exitCode : Nat
deriving DecidableEq, Repr

/-- Initial loop state over a filesystem. -/
def initState (fs : FS) : RunState :=
  ⟨fs, 0, 0, 0, 0, [], [], []⟩

/-- `main()`: fatal exit when the input root does not exist; otherwise
fold the loop body over the entries below the root and emit the summary. -/
def run (pil : PIL) (cfg : Config) (fs0 : FS) : RunResult :=
  if !fs0.existsP cfg.inRoot then
    ⟨some (fatalMsg cfg.inRoot), fs0, 0, 0, 0, 0, [], [], [], false, 1⟩
  else
    let st := (entriesUnder fs0 cfg.inRoot).foldl (processEntry pil cfg) (initState fs0)
    ⟨none, st.fs, st.total, st.converted, st.skipped, st.failed,
      st.events, st.log, st.openedSrcs, true, 0⟩

/-- Is the event a skip? -/
def isSkipEv : Event → Bool
  | .skipped _ _ => true
  | _ => false

/-- Is the event a successful conversion? -/
def isConvEv : Event → Bool
  | .converted _ _ => true
  | _ => false

/-- Is the event a failure? -/
def isFailEv : Event → Bool
  | .failed _ _ _ => true
  | _ => false

/-- The source path an event is about. -/
def evSrc : Event → Path
  | .skipped s _ => s
  | .converted s _ => s
  | .failed s _ _ => s

/-- The destination path an event is about. -/
def evDst : Event → Path
  | .skipped _ d => d
  | .converted _ d => d
  | .failed _ d _ => d

/-- Number of events of a given kind. -/
def countEv (p : Event → Bool) (l : List Event) : Nat :=
  (l.filter p).length

/-- A name with its extension removed (what precedes the suffix). -/
def stripSuffixChars (cs : List Char) : List Char :=
  cs.take (cs.length - (suffixChars cs).length)

/-- Modelled from the spec's words, for comparison with `destPath`: "the
output root joined with the candidate's path relative to the input root,
with its extension replaced by .png, preserving the directory
structure". -/
def specMirrorDest (inRoot outRoot p : Path) : Path :=
  let rel := p.drop inRoot.length
  match rel.getLast? with
  | none => outRoot
  | some name => outRoot ++ (rel.dropLast ++ [String.mk (stripSuffixChars name.data ++ (".png").data)])

/-- A Pillow oracle on which every operation succeeds. -/
def pilStub : PIL where
  openImg := fun _ => .ok ⟨"P", 5⟩
  seekFirst := fun im => .ok im
  convertPayload := fun im => .ok (im.payload + 100)
  encodePNG := fun im => .ok (im.payload * 2)

/-- A Pillow oracle on which every decode fails. -/
def pilOpenFail : PIL where
  openImg := fun _ => .error "cannot identify image file"
  seekFirst := fun im => .ok im
  convertPayload := fun im => .ok im.payload
  encodePNG := fun im => .ok im.payload

/-- A Pillow oracle on which every first-frame seek fails. -/
def pilSeekFail : PIL where
  openImg := fun _ => .ok ⟨"P", 5⟩
  seekFirst := fun _ => .error "seek not supported"
  convertPayload := fun im => .ok (im.payload + 100)
  encodePNG := fun im => .ok (im.payload * 2)

/-- The configuration used by the concrete runs below. -/
def cfg1 : Config := ⟨["in"], ["out"], true⟩

/-- A tree with one uppercase-TIFF file in a subdirectory, a lowercase
one whose destination is pre-populated, and a non-candidate PNG. -/
def fsTree : FS :=
  ⟨[⟨["in"], false, 0⟩, ⟨["in", "a"], false, 0⟩, ⟨["in", "a", "x.TIF"], true, 7⟩,
    ⟨["in", "b.tiff"], true, 8⟩, ⟨["in", "c.png"], true, 9⟩, ⟨["out"], false, 0⟩,
    ⟨["out", "b.png"], true, 42⟩]⟩

/-- A filesystem in which the input root exists as a regular file. -/
def fsRootFile : FS := ⟨[⟨["in"], true, 0⟩]⟩

/-- A tree with one candidate whose conversion fails and one whose
destination is pre-populated. -/
def fsMixed : FS :=
  ⟨[⟨["in"], false, 0⟩, ⟨["in", "a.tif"], true, 7⟩, ⟨["in", "b.tif"], true, 8⟩,
    ⟨["out", "b.png"], true, 9⟩]⟩

/-- A filesystem in which a regular file blocks the destination's parent
chain. -/
def fsBlocked : FS := ⟨[⟨["in"], false, 0⟩, ⟨["in", "x.tif"], true, 3⟩, ⟨["out", "a"], true, 0⟩]⟩

/-- A loop state over `fsBlocked` with zeroed counters. -/
def stBlocked : RunState := initState fsBlocked

/-- A loop state over `fsTree` with zeroed counters. -/
def stTree : RunState := initState fsTree

/-- The fold over the candidates only, starting from the zeroed state;
`run_eq_candidates` shows the run computes exactly this. -/
def candidatesOf (fs : FS) (root : Path) : List Entry :=
  (entriesUnder fs root).filter candB

/-- The loop state `main` reaches after its loop, when the root exists. -/
def runState (pil : PIL) (cfg : Config) (fs0 : FS) : RunState :=
  (candidatesOf fs0 cfg.inRoot).foldl (processEntry pil cfg) (initState fs0)

/-- The (source, destination) pair an event is about. -/
def evSrcDst (ev : Event) : Path × Path :=
  (evSrc ev, evDst ev)

/-- The counters agree with the event trace: one event per candidate,
and each counter counts the events of its kind. -/
def tallyWF (st : RunState) : Prop :=
  st.total = st.events.length ∧
  st.converted = countEv isConvEv st.events ∧
  st.skipped = countEv isSkipEv st.events ∧
  st.failed = countEv isFailEv st.events

/-- The filesystem grew from `fs0` by prepending non-candidate entries
only (directories and `.png` files). -/
def fsExtends (fs0 fs : FS) : Prop :=
  ∃ ex, fs.entries = ex ++ fs0.entries ∧ ∀ e ∈ ex, candB e = false

/-- Invariant of a skip-enabled run: the filesystem only gained
non-candidate entries, and the destination of every non-failure event
exists. -/
def skipInv (fs0 : FS) (st : RunState) : Prop :=
  fsExtends fs0 st.fs ∧
  ∀ ev ∈ st.events, isFailEv ev = true ∨ st.fs.existsP (evDst ev) = true

theorem processEntry_noncand (pil : PIL) (cfg : Config) (st : RunState) (e : Entry)
    (h : candB e = false) : processEntry pil cfg st e = st := by
  simp [processEntry, h]

theorem foldl_skip_of_id {α β : Type} (f : β → α → β) (p : α → Bool)
    (hf : ∀ st e, p e = false → f st e = st) :
    ∀ (l : List α) (st : β), l.foldl f st = (l.filter p).foldl f st := by
  intro l
  induction l with
  | nil => intro st; rfl
  | cons e l ih =>
    intro st
    by_cases hp : p e = true
    · simp [List.foldl_cons, List.filter_cons, hp, ih]
    · have hp2 : p e = false := by
        cases h2 : p e
        · rfl
        · exact absurd h2 hp
      simp [List.foldl_cons, List.filter_cons, hp2, hf st e hp2, ih]

theorem run_eq_candidates (pil : PIL) (cfg : Config) (fs0 : FS)
    (h : fs0.existsP cfg.inRoot = true) :
    run pil cfg fs0 =
      ⟨none, (runState pil cfg fs0).fs, (runState pil cfg fs0).total,
        (runState pil cfg fs0).converted, (runState pil cfg fs0).skipped,
        (runState pil cfg fs0).failed, (runState pil cfg fs0).events,
        (runState pil cfg fs0).log, (runState pil cfg fs0).openedSrcs, true, 0⟩ := by
  have hfold := foldl_skip_of_id (processEntry pil cfg) candB
    (fun st e he => processEntry_noncand pil cfg st e he)
    (entriesUnder fs0 cfg.inRoot) (initState fs0)
  simp only [run, h, Bool.not_true, Bool.false_eq_true, if_false, runState, candidatesOf]
  rw [hfold]

theorem run_summary_root (pil : PIL) (cfg : Config) (fs0 : FS)
    (h : (run pil cfg fs0).summaryEmitted = true) : fs0.existsP cfg.inRoot = true := by
  cases hex : fs0.existsP cfg.inRoot
  · simp [run, hex] at h
  · rfl

theorem run_fatal_none_root (pil : PIL) (cfg : Config) (fs0 : FS)
    (h : (run pil cfg fs0).fatal = none) : fs0.existsP cfg.inRoot = true := by
  cases hex : fs0.existsP cfg.inRoot
  · simp [run, hex] at h
  · rfl

theorem FS.existsP_of_isFile (fs : FS) (p : Path) (h : fs.isFile p = true) :
    fs.existsP p = true := by
  rcases List.any_eq_true.mp h with ⟨e, he, hcond⟩
  rw [Bool.and_eq_true] at hcond
  exact List.any_eq_true.mpr ⟨e, he, hcond.1⟩

theorem FS.isDir_of_exists_not_file (fs : FS) (p : Path)
    (hex : fs.existsP p = true) (hnf : fs.isFile p = false) : fs.isDir p = true := by
  rcases List.any_eq_true.mp hex with ⟨e, he, hpath⟩
  refine List.any_eq_true.mpr ⟨e, he, ?_⟩
  have hef : e.isFile = false := by
    cases hf : e.isFile
    · rfl
    · exfalso
      have : fs.isFile p = true := List.any_eq_true.mpr ⟨e, he, by simp [hpath, hf]⟩
      rw [this] at hnf
      exact Bool.true_eq_false.mp hnf
  simp [hpath, hef]

theorem FS.existsP_append_right (l1 l2 : List Entry) (p : Path)
    (h : FS.existsP ⟨l2⟩ p = true) : FS.existsP ⟨l1 ++ l2⟩ p = true := by
  simp only [FS.existsP, List.any_append]
  simp only [FS.existsP] at h
  simp [h]

theorem FS.isDir_append_right (l1 l2 : List Entry) (p : Path)
    (h : FS.isDir ⟨l2⟩ p = true) : FS.isDir ⟨l1 ++ l2⟩ p = true := by
  simp only [FS.isDir, List.any_append]
  simp only [FS.isDir] at h
  simp [h]

theorem pathPrefixes_mem (d q : Path) (h : q ∈ pathPrefixes d) :
    q.length ≤ d.length := by
  simp only [pathPrefixes, List.mem_map, List.mem_range] at h
  rcases h with ⟨k, _, rfl⟩
  simp [List.length_take]

theorem FS.addDirs_entries (fs : FS) (d : Path) :
    (fs.addDirs d).entries =
      ((pathPrefixes d).filterMap
        (fun q => if fs.existsP q then none else some ⟨q, false, 0⟩)) ++ fs.entries := rfl

theorem FS.addDirs_new_mem (fs : FS) (d : Path) (e : Entry)
    (h : e ∈ (pathPrefixes d).filterMap
      (fun q => if fs.existsP q then none else some ⟨q, false, 0⟩)) :
    e.isFile = false ∧ e.path.length ≤ d.length := by
  rcases List.mem_filterMap.mp h with ⟨q, hq, hsome⟩
  cases hex : fs.existsP q
  · rw [hex] at hsome
    simp only [Bool.false_eq_true, if_false, Option.some.injEq] at hsome
    rw [← hsome]
    exact ⟨rfl, pathPrefixes_mem d q hq⟩
  · rw [hex] at hsome
    simp at hsome

theorem FS.existsP_addDirs (fs : FS) (d q : Path) (h : fs.existsP q = true) :
    (fs.addDirs d).existsP q = true :=
  FS.existsP_append_right _ _ q h

theorem FS.existsP_addDirs_false (fs : FS) (d p : Path)
    (hlen : d.length < p.length) (h : fs.existsP p = false) :
    (fs.addDirs d).existsP p = false := by
  cases hres : (fs.addDirs d).existsP p
  · rfl
  · exfalso
    rcases List.any_eq_true.mp hres with ⟨e, he, hpath⟩
    rw [FS.addDirs_entries] at he
    rcases List.mem_append.mp he with hnew | hold
    · have hle := (FS.addDirs_new_mem fs d e hnew).2
      have hpe : e.path = p := by simpa using hpath
      rw [hpe] at hle
      omega
    · have : fs.existsP p = true := List.any_eq_true.mpr ⟨e, hold, hpath⟩
      rw [this] at h
      exact Bool.true_eq_false.mp h

theorem FS.writeFile_of_not_exists (fs : FS) (p : Path) (c : Nat)
    (h : fs.existsP p = false) :
    (fs.writeFile p c).entries = ⟨p, true, c⟩ :: fs.entries := by
  simp only [FS.writeFile]
  congr 1
  refine List.filter_eq_self.mpr ?_
  intro e he
  cases hpe : (e.path == p)
  · rfl
  · exfalso
    have : fs.existsP p = true := List.any_eq_true.mpr ⟨e, he, hpe⟩
    rw [this] at h
    exact Bool.true_eq_false.mp h

theorem FS.existsP_writeFile_self (fs : FS) (p : Path) (c : Nat) :
    (fs.writeFile p c).existsP p = true := by
  simp [FS.writeFile, FS.existsP]

theorem FS.existsP_writeFile_of (fs : FS) (p q : Path) (c : Nat)
    (h : fs.existsP q = true) : (fs.writeFile p c).existsP q = true := by
  rcases List.any_eq_true.mp h with ⟨e, he, hpath⟩
  by_cases hqp : q = p
  · subst hqp; exact FS.existsP_writeFile_self fs q c
  · refine List.any_eq_true.mpr ⟨e, ?_, hpath⟩
    simp only [FS.writeFile, List.mem_cons, List.mem_filter]
    right
    refine ⟨he, ?_⟩
    have hep : e.path = q := by simpa using hpath
    simp [hep, hqp]

theorem FS.isDir_writeFile_of_ne (fs : FS) (p q : Path) (c : Nat)
    (hne : q ≠ p) (h : fs.isDir q = true) : (fs.writeFile p c).isDir q = true := by
  rcases List.any_eq_true.mp h with ⟨e, he, hcond⟩
  refine List.any_eq_true.mpr ⟨e, ?_, hcond⟩
  simp only [FS.writeFile, List.mem_cons, List.mem_filter]
  right
  refine ⟨he, ?_⟩
  have hep : e.path = q := by
    rw [Bool.and_eq_true] at hcond
    simpa using hcond.1
  simp [hep, hne]

theorem rfindDot_append_png (pre : List Char) :
    rfindDot (pre ++ ['.', 'p', 'n', 'g']) = some pre.length := by
  induction pre with
  | nil => decide
  | cons c pre ih => simp [rfindDot, ih]

theorem suffixChars_append_png (pre : List Char) :
    suffixChars (pre ++ ['.', 'p', 'n', 'g']) =
      if pre = [] then [] else ['.', 'p', 'n', 'g'] := by
  by_cases hpre : pre = []
  · subst hpre
    simp only [List.nil_append, if_pos rfl]
    decide
  · have h1 := rfindDot_append_png pre
    have hlen : 0 < pre.length := List.length_pos.mpr hpre
    simp only [suffixChars, h1, List.length_append, List.length_cons, List.length_nil,
      if_neg hpre]
    rw [if_pos ⟨hlen, by omega⟩]
    exact List.drop_left pre ['.', 'p', 'n', 'g']

theorem withSuffixChars_png_shape (cs : List Char) :
    ∃ pre, withSuffixChars cs ('.' :: ['p', 'n', 'g']) = pre ++ ['.', 'p', 'n', 'g'] := by
  unfold withSuffixChars
  by_cases h : suffixChars cs = []
  · exact ⟨cs, by simp [h]⟩
  · exact ⟨cs.take (cs.length - (suffixChars cs).length), by simp [h]⟩

theorem isTiffName_append_png (pre : List Char) :
    isTiffName (String.mk (pre ++ ['.', 'p', 'n', 'g'])) = false := by
  unfold isTiffName
  simp only [suffixChars_append_png]
  by_cases hpre : pre = []
  · rw [if_pos hpre]; decide
  · rw [if_neg hpre]; decide

theorem isTiffName_withSuffix_png (name : String) :
    isTiffName (withSuffix name ".png") = false := by
  have hdata : (".png" : String).data = ['.', 'p', 'n', 'g'] := rfl
  unfold withSuffix
  rw [hdata]
  rcases withSuffixChars_png_shape name.data with ⟨pre, hpre⟩
  have hpng : withSuffixChars name.data ['.', 'p', 'n', 'g'] = pre ++ ['.', 'p', 'n', 'g'] := hpre
  rw [hpng]
  exact isTiffName_append_png pre

theorem underRoot_drop_ne_nil (root p : Path) (h : underRoot root p = true) :
    p.drop root.length ≠ [] := by
  unfold underRoot at h
  rw [Bool.and_eq_true] at h
  have hlen : root.length < p.length := by simpa using h.2
  intro hnil
  have := List.length_drop root.length p
  rw [hnil] at this
  simp at this
  omega

theorem getLast?_drop_of_ne_nil (p : Path) (n : Nat) (h : p.drop n ≠ []) :
    (p.drop n).getLast? = p.getLast? := by
  conv_rhs => rw [← List.take_append_drop n p]
  rw [List.getLast?_append_of_ne_nil _ h]

theorem destPath_eq (root out p : Path) (h : underRoot root p = true) :
    ∃ name, (p.drop root.length).getLast? = some name ∧ p.getLast? = some name ∧
      destPath root out p =
        out ++ ((p.drop root.length).dropLast ++ [withSuffix name ".png"]) := by
  have hne := underRoot_drop_ne_nil root p h
  cases hlast : (p.drop root.length).getLast? with
  | none => exact absurd (List.getLast?_eq_none_iff.mp hlast) hne
  | some name =>
    refine ⟨name, rfl, ?_, ?_⟩
    · rw [← getLast?_drop_of_ne_nil p root.length hne]
      exact hlast
    · simp only [destPath]
      rw [hlast]

theorem isTiffPath_destPath (root out p : Path) (h : underRoot root p = true) :
    isTiffPath (destPath root out p) = false := by
  rcases destPath_eq root out p h with ⟨name, _, _, hdest⟩
  rw [hdest]
  unfold isTiffPath
  rw [← List.append_assoc, List.getLast?_concat]
  exact isTiffName_withSuffix_png name

theorem destPath_ne_nil (root out p : Path) (h : underRoot root p = true) :
    destPath root out p ≠ [] := by
  rcases destPath_eq root out p h with ⟨name, _, _, hdest⟩
  rw [hdest]
  simp

theorem processEntry_shape (pil : PIL) (cfg : Config) (st : RunState) (e : Entry) :
    (candB e = false ∧ processEntry pil cfg st e = st) ∨
    (candB e = true ∧
      (((cfg.skipExisting && st.fs.existsP (destPath cfg.inRoot cfg.outRoot e.path)) = true ∧
          processEntry pil cfg st e =
            { st with
                total := st.total + 1
                skipped := st.skipped + 1
                events := st.events ++
                  [Event.skipped e.path (destPath cfg.inRoot cfg.outRoot e.path)] }) ∨
       ((cfg.skipExisting && st.fs.existsP (destPath cfg.inRoot cfg.outRoot e.path)) = false ∧
         (((convert_one pil st.fs e.path (destPath cfg.inRoot cfg.outRoot e.path)).outcome =
              ConvOutcome.ok ∧
            processEntry pil cfg st e =
              { st with
                  fs := (convert_one pil st.fs e.path
                    (destPath cfg.inRoot cfg.outRoot e.path)).fs
                  total := st.total + 1
                  converted := st.converted + 1
                  events := st.events ++
                    [Event.converted e.path (destPath cfg.inRoot cfg.outRoot e.path)]
                  openedSrcs := st.openedSrcs ++
                    (if (convert_one pil st.fs e.path
                          (destPath cfg.inRoot cfg.outRoot e.path)).opened
                     then [e.path] else []) }) ∨
          (∃ stg m,
            (convert_one pil st.fs e.path (destPath cfg.inRoot cfg.outRoot e.path)).outcome =
              ConvOutcome.err stg m ∧
            processEntry pil cfg st e =
              { st with
                  fs := (convert_one pil st.fs e.path
                    (destPath cfg.inRoot cfg.outRoot e.path)).fs
                  total := st.total + 1
                  failed := st.failed + 1
                  events := st.events ++
                    [Event.failed e.path (destPath cfg.inRoot cfg.outRoot e.path) m]
                  log := st.log ++
                    [failLine e.path (destPath cfg.inRoot cfg.outRoot e.path) m]
                  openedSrcs := st.openedSrcs ++
                    (if (convert_one pil st.fs e.path
                          (destPath cfg.inRoot cfg.outRoot e.path)).opened
                     then [e.path] else []) }))))) := by
  by_cases hc : candB e = true
  · right
    refine ⟨hc, ?_⟩
    by_cases hskip :
        (cfg.skipExisting && st.fs.existsP (destPath cfg.inRoot cfg.outRoot e.path)) = true
    · left
      exact ⟨hskip, by simp [processEntry, processCand, hc, hskip]⟩
    · right
      have hskip2 :
          (cfg.skipExisting && st.fs.existsP (destPath cfg.inRoot cfg.outRoot e.path)) = false :=
        Bool.eq_false_iff.mpr hskip
      refine ⟨hskip2, ?_⟩
      cases hout :
          (convert_one pil st.fs e.path (destPath cfg.inRoot cfg.outRoot e.path)).outcome with
      | ok =>
        left
        exact ⟨rfl, by simp [processEntry, processCand, hc, hskip2, hout]⟩
      | err stg m =>
        right
        exact ⟨stg, m, rfl, by simp [processEntry, processCand, hc, hskip2, hout]⟩
  · left
    have hc2 : candB e = false := Bool.eq_false_iff.mpr hc
    exact ⟨hc2, processEntry_noncand pil cfg st e hc2⟩

theorem convert_one_shape (pil : PIL) (fs : FS) (src dst : Path) :
    (mkdirOk fs dst.dropLast = false ∧
       convert_one pil fs src dst =
         ⟨fs, ConvOutcome.err ConvStage.mkdirStage "mkdir: parent chain blocked by a file",
           false, none, false⟩) ∨
    (mkdirOk fs dst.dropLast = true ∧
       (((convert_one pil fs src dst).fs = fs.addDirs dst.dropLast ∧
           ∃ stg m, (convert_one pil fs src dst).outcome = ConvOutcome.err stg m) ∨
        (∃ c, (convert_one pil fs src dst).fs = (fs.addDirs dst.dropLast).writeFile dst c ∧
           (convert_one pil fs src dst).outcome = ConvOutcome.ok))) := by
  by_cases hmk : mkdirOk fs dst.dropLast = true
  · right
    refine ⟨hmk, ?_⟩
    cases hopen : pil.openImg src with
    | error m =>
      left
      constructor
      · simp [convert_one, hmk, hopen]
      · exact ⟨ConvStage.openStage, m, by simp [convert_one, hmk, hopen]⟩
    | ok im0 =>
      cases hnorm : normalizeMode pil (seekFirstFrame pil im0) with
      | error m =>
        left
        constructor
        · simp [convert_one, hmk, hopen, hnorm]
        · exact ⟨ConvStage.modeStage, m, by simp [convert_one, hmk, hopen, hnorm]⟩
      | ok im2 =>
        cases henc : pil.encodePNG im2 with
        | error m =>
          left
          constructor
          · simp [convert_one, hmk, hopen, hnorm, henc]
          · exact ⟨ConvStage.saveStage, m, by simp [convert_one, hmk, hopen, hnorm, henc]⟩
        | ok png =>
          right
          exact ⟨png, by simp [convert_one, hmk, hopen, hnorm, henc], by
            simp [convert_one, hmk, hopen, hnorm, henc]⟩
  · left
    have hmk2 : mkdirOk fs dst.dropLast = false := Bool.eq_false_iff.mpr hmk
    exact ⟨hmk2, by simp [convert_one, hmk2]⟩

theorem convert_one_existsP_mono (pil : PIL) (fs : FS) (src dst : Path)
    (hdst : fs.existsP dst = false) (q : Path) (hq : fs.existsP q = true) :
    (convert_one pil fs src dst).fs.existsP q = true := by
  have hqd : q ≠ dst := by
    intro heq
    rw [heq, hdst] at hq
    exact Bool.false_ne_true hq
  rcases convert_one_shape pil fs src dst with ⟨_, hrec⟩ | ⟨_, ⟨hfs, _⟩ | ⟨c, hfs, _⟩⟩
  · rw [hrec]
    exact hq
  · rw [hfs]
    exact FS.existsP_addDirs fs dst.dropLast q hq
  · rw [hfs]
    exact FS.existsP_writeFile_of _ dst q c (FS.existsP_addDirs fs dst.dropLast q hq)

theorem convert_one_extends (pil : PIL) (fs : FS) (src dst : Path)
    (hdst : fs.existsP dst = false) (htiff : isTiffPath dst = false) (hne : dst ≠ []) :
    ∃ ex, (convert_one pil fs src dst).fs.entries = ex ++ fs.entries ∧
      ∀ e ∈ ex, candB e = false := by
  have hlen : dst.dropLast.length < dst.length := by
    rw [List.length_dropLast]
    have : 0 < dst.length := List.length_pos.mpr hne
    omega
  rcases convert_one_shape pil fs src dst with ⟨_, hrec⟩ | ⟨_, ⟨hfs, _⟩ | ⟨c, hfs, _⟩⟩
  · refine ⟨[], ?_, by simp⟩
    rw [hrec]
    simp
  · refine ⟨_, by rw [hfs]; exact FS.addDirs_entries fs dst.dropLast, ?_⟩
    intro e he
    have := (FS.addDirs_new_mem fs dst.dropLast e he).1
    simp [candB, this]
  · have hdst2 : (fs.addDirs dst.dropLast).existsP dst = false :=
      FS.existsP_addDirs_false fs dst.dropLast dst hlen hdst
    refine ⟨⟨dst, true, c⟩ ::
      ((pathPrefixes dst.dropLast).filterMap
        (fun q => if fs.existsP q then none else some ⟨q, false, 0⟩)), ?_, ?_⟩
    · rw [hfs, FS.writeFile_of_not_exists _ dst c hdst2, FS.addDirs_entries]
      rfl
    · intro e he
      rcases List.mem_cons.mp he with rfl | htail
      · simp [candB, htiff]
      · have := (FS.addDirs_new_mem fs dst.dropLast e htail).1
        simp [candB, this]

theorem convert_one_ok_dst (pil : PIL) (fs : FS) (src dst : Path)
    (hok : (convert_one pil fs src dst).outcome = ConvOutcome.ok) :
    (convert_one pil fs src dst).fs.existsP dst = true := by
  rcases convert_one_shape pil fs src dst with ⟨_, hrec⟩ | ⟨_, ⟨_, stg, m, herr⟩ | ⟨c, hfs, _⟩⟩
  · rw [hrec] at hok
    simp at hok
  · rw [herr] at hok
    simp at hok
  · rw [hfs]
    exact FS.existsP_writeFile_self _ dst c

theorem FS.addDirs_isDir (fs : FS) (d : Path) (hmk : mkdirOk fs d = true)
    (q : Path) (hq : q ∈ pathPrefixes d) : (fs.addDirs d).isDir q = true := by
  have hnf : fs.isFile q = false := by
    have hall := List.all_eq_true.mp hmk q hq
    simpa using hall
  cases hex : fs.existsP q
  · have hmem : (⟨q, false, 0⟩ : Entry) ∈
        (pathPrefixes d).filterMap
          (fun r => if fs.existsP r then none else some ⟨r, false, 0⟩) := by
      refine List.mem_filterMap.mpr ⟨q, hq, ?_⟩
      rw [hex]
      simp
    refine List.any_eq_true.mpr ⟨⟨q, false, 0⟩, ?_, by simp⟩
    rw [FS.addDirs_entries]
    exact List.mem_append.mpr (Or.inl hmem)
  · exact FS.isDir_append_right _ _ q (FS.isDir_of_exists_not_file fs q hex hnf)

theorem pathPrefixes_mem_dst (dst : Path) (q : Path) (hq : q ∈ pathPrefixes dst.dropLast) :
    q ≠ dst ∧ dst ≠ [] := by
  have hql : q.length ≤ dst.dropLast.length := pathPrefixes_mem dst.dropLast q hq
  have hpos : 0 < dst.dropLast.length := by
    by_contra hle
    have h0 : dst.dropLast.length = 0 := by omega
    have : pathPrefixes dst.dropLast = [] := by
      unfold pathPrefixes
      rw [h0]
      rfl
    rw [this] at hq
    exact absurd hq (List.not_mem_nil q)
  have hdl : dst.dropLast.length = dst.length - 1 := List.length_dropLast dst
  constructor
  · intro heq
    rw [heq] at hql
    omega
  · intro heq
    rw [heq] at hpos
    simp at hpos

theorem convert_one_isDir (pil : PIL) (fs : FS) (src dst : Path)
    (hmk : mkdirOk fs dst.dropLast = true)
    (q : Path) (hq : q ∈ pathPrefixes dst.dropLast) :
    (convert_one pil fs src dst).fs.isDir q = true := by
  have hqd := (pathPrefixes_mem_dst dst q hq).1
  have hdirs := FS.addDirs_isDir fs dst.dropLast hmk q hq
  rcases convert_one_shape pil fs src dst with ⟨hmk2, _⟩ | ⟨_, ⟨hfs, _⟩ | ⟨c, hfs, _⟩⟩
  · rw [hmk] at hmk2
    exact absurd hmk2 (by decide)
  · rw [hfs]
    exact hdirs
  · rw [hfs]
    exact FS.isDir_writeFile_of_ne _ dst q c hqd hdirs

theorem countEv_append (p : Event → Bool) (l1 l2 : List Event) :
    countEv p (l1 ++ l2) = countEv p l1 + countEv p l2 := by
  simp [countEv, List.filter_append]

theorem countEv_parts (l : List Event) :
    countEv isConvEv l + countEv isSkipEv l + countEv isFailEv l = l.length := by
  induction l with
  | nil => rfl
  | cons ev l ih =>
    cases ev <;> simp [countEv, List.filter_cons, isConvEv, isSkipEv, isFailEv] at ih ⊢ <;> omega

theorem countEv_zero_of_none (p : Event → Bool) (l : List Event)
    (h : countEv p l = 0) : ∀ ev ∈ l, p ev = false := by
  intro ev hev
  have hnil : l.filter p = [] := List.length_eq_zero.mp h
  cases hp : p ev
  · rfl
  · exfalso
    have : ev ∈ l.filter p := List.mem_filter.mpr ⟨hev, hp⟩
    rw [hnil] at this
    exact absurd this (List.not_mem_nil ev)

theorem processEntry_tallyWF (pil : PIL) (cfg : Config) (st : RunState) (e : Entry)
    (h : tallyWF st) : tallyWF (processEntry pil cfg st e) := by
  obtain ⟨ht, hc, hs, hf⟩ := h
  rcases processEntry_shape pil cfg st e with ⟨_, hrec⟩ |
    ⟨_, ⟨_, hrec⟩ | ⟨_, ⟨_, hrec⟩ | ⟨stg, m, _, hrec⟩⟩⟩ <;>
    rw [hrec] <;>
    simp [tallyWF, countEv_append, ht, hc, hs, hf, countEv, List.filter_cons,
      isConvEv, isSkipEv, isFailEv]

theorem foldl_tallyWF (pil : PIL) (cfg : Config) :
    ∀ (l : List Entry) (st : RunState), tallyWF st →
      tallyWF (l.foldl (processEntry pil cfg) st) := by
  intro l
  induction l with
  | nil => intro st h; exact h
  | cons e l ih =>
    intro st h
    exact ih _ (processEntry_tallyWF pil cfg st e h)

theorem processEntry_total_cand (pil : PIL) (cfg : Config) (st : RunState) (e : Entry) :
    (processEntry pil cfg st e).total = st.total + (if candB e then 1 else 0) := by
  rcases processEntry_shape pil cfg st e with ⟨hcand, hrec⟩ |
    ⟨hcand, ⟨_, hrec⟩ | ⟨_, ⟨_, hrec⟩ | ⟨stg, m, _, hrec⟩⟩⟩ <;>
    rw [hrec] <;> simp [hcand]

theorem foldl_total (pil : PIL) (cfg : Config) :
    ∀ (l : List Entry) (st : RunState),
      (l.foldl (processEntry pil cfg) st).total = st.total + (l.filter candB).length := by
  intro l
  induction l with
  | nil => intro st; simp
  | cons e l ih =>
    intro st
    rw [List.foldl_cons, ih, processEntry_total_cand, List.filter_cons]
    by_cases hc : candB e = true
    · simp [hc, Nat.add_assoc, Nat.add_comm 1]
    · have hc2 : candB e = false := Bool.eq_false_iff.mpr hc
      simp [hc2]

theorem processEntry_srcdst (pil : PIL) (cfg : Config) (st : RunState) (e : Entry) :
    (processEntry pil cfg st e).events.map evSrcDst =
      st.events.map evSrcDst ++
        (if candB e then [(e.path, destPath cfg.inRoot cfg.outRoot e.path)] else []) := by
  rcases processEntry_shape pil cfg st e with ⟨hcand, hrec⟩ |
    ⟨hcand, ⟨_, hrec⟩ | ⟨_, ⟨_, hrec⟩ | ⟨stg, m, _, hrec⟩⟩⟩ <;>
    rw [hrec] <;> simp [hcand, evSrcDst, evSrc, evDst]

theorem foldl_srcdst (pil : PIL) (cfg : Config) :
    ∀ (l : List Entry) (st : RunState),
      (l.foldl (processEntry pil cfg) st).events.map evSrcDst =
        st.events.map evSrcDst ++
          (l.filter candB).map (fun e => (e.path, destPath cfg.inRoot cfg.outRoot e.path)) := by
  intro l
  induction l with
  | nil => intro st; simp
  | cons e l ih =>
    intro st
    rw [List.foldl_cons, ih, processEntry_srcdst, List.filter_cons]
    by_cases hc : candB e = true
    · simp [hc]
    · have hc2 : candB e = false := Bool.eq_false_iff.mpr hc
      simp [hc2]

theorem processEntry_skipInv (pil : PIL) (cfg : Config) (fs0 : FS) (st : RunState) (e : Entry)
    (hSkip : cfg.skipExisting = true) (hU : underRoot cfg.inRoot e.path = true)
    (h : skipInv fs0 st) : skipInv fs0 (processEntry pil cfg st e) := by
  obtain ⟨⟨ex, hent, hexc⟩, hev⟩ := h
  rcases processEntry_shape pil cfg st e with ⟨_, hrec⟩ |
    ⟨hcand, ⟨hsk, hrec⟩ | ⟨hsk, hbr⟩⟩
  · rw [hrec]
    exact ⟨⟨ex, hent, hexc⟩, hev⟩
  · rw [hrec]
    refine ⟨⟨ex, hent, hexc⟩, ?_⟩
    intro ev hevm
    rcases List.mem_append.mp hevm with hold | hnew
    · exact hev ev hold
    · rcases List.mem_singleton.mp hnew with rfl
      right
      rw [hSkip, Bool.true_and] at hsk
      simpa [evDst] using hsk
  · have hdstF : st.fs.existsP (destPath cfg.inRoot cfg.outRoot e.path) = false := by
      rw [hSkip, Bool.true_and] at hsk
      exact hsk
    have htiff : isTiffPath (destPath cfg.inRoot cfg.outRoot e.path) = false :=
      isTiffPath_destPath cfg.inRoot cfg.outRoot e.path hU
    have hdne : destPath cfg.inRoot cfg.outRoot e.path ≠ [] :=
      destPath_ne_nil cfg.inRoot cfg.outRoot e.path hU
    have hext := convert_one_extends pil st.fs e.path
      (destPath cfg.inRoot cfg.outRoot e.path) hdstF htiff hdne
    have hmono := convert_one_existsP_mono pil st.fs e.path
      (destPath cfg.inRoot cfg.outRoot e.path) hdstF
    rcases hbr with ⟨hok, hrec⟩ | ⟨stg, m, herr, hrec⟩
    · rw [hrec]
      constructor
      · rcases hext with ⟨ex2, hent2, hexc2⟩
        refine ⟨ex2 ++ ex, ?_, ?_⟩
        · rw [hent2, hent, List.append_assoc]
        · intro e2 he2
          rcases List.mem_append.mp he2 with h1 | h2
          · exact hexc2 e2 h1
          · exact hexc e2 h2
      · intro ev hevm
        rcases List.mem_append.mp hevm with hold | hnew
        · rcases hev ev hold with hfail | hexq
          · exact Or.inl hfail
          · exact Or.inr (hmono (evDst ev) hexq)
        · rcases List.mem_singleton.mp hnew with rfl
          right
          simpa [evDst] using convert_one_ok_dst pil st.fs e.path
            (destPath cfg.inRoot cfg.outRoot e.path) hok
    · rw [hrec]
      constructor
      · rcases hext with ⟨ex2, hent2, hexc2⟩
        refine ⟨ex2 ++ ex, ?_, ?_⟩
        · rw [hent2, hent, List.append_assoc]
        · intro e2 he2
          rcases List.mem_append.mp he2 with h1 | h2
          · exact hexc2 e2 h1
          · exact hexc e2 h2
      · intro ev hevm
        rcases List.mem_append.mp hevm with hold | hnew
        · rcases hev ev hold with hfail | hexq
          · exact Or.inl hfail
          · exact Or.inr (hmono (evDst ev) hexq)
        · rcases List.mem_singleton.mp hnew with rfl
          left
          simp [isFailEv]

theorem foldl_skipInv (pil : PIL) (cfg : Config) (fs0 : FS)
    (hSkip : cfg.skipExisting = true) :
    ∀ (l : List Entry) (st : RunState), (∀ e ∈ l, underRoot cfg.inRoot e.path = true) →
      skipInv fs0 st → skipInv fs0 (l.foldl (processEntry pil cfg) st) := by
  intro l
  induction l with
  | nil => intro st _ h; exact h
  | cons e l ih =>
    intro st hU h
    exact ih _ (fun e2 he2 => hU e2 (List.mem_cons_of_mem e he2))
      (processEntry_skipInv pil cfg fs0 st e hSkip (hU e (List.mem_cons_self e l)) h)

theorem processEntry_skip_eq (pil : PIL) (cfg : Config) (st : RunState) (e : Entry)
    (hc : candB e = true)
    (hsk : (cfg.skipExisting && st.fs.existsP (destPath cfg.inRoot cfg.outRoot e.path)) = true) :
    processEntry pil cfg st e =
      { st with
          total := st.total + 1
          skipped := st.skipped + 1
          events := st.events ++
            [Event.skipped e.path (destPath cfg.inRoot cfg.outRoot e.path)] } := by
  simp [processEntry, processCand, hc, hsk]

theorem foldl_allskip (pil : PIL) (cfg : Config) (hSkip : cfg.skipExisting = true) :
    ∀ (l : List Entry) (st : RunState),
      (∀ e ∈ l, candB e = true) →
      (∀ e ∈ l, st.fs.existsP (destPath cfg.inRoot cfg.outRoot e.path) = true) →
      l.foldl (processEntry pil cfg) st =
        { st with
            total := st.total + l.length
            skipped := st.skipped + l.length
            events := st.events ++
              l.map (fun e => Event.skipped e.path (destPath cfg.inRoot cfg.outRoot e.path)) } := by
  intro l
  induction l with
  | nil =>
    intro st _ _
    simp
  | cons e l ih =>
    intro st hcand hex
    have hc := hcand e (List.mem_cons_self e l)
    have hsk : (cfg.skipExisting &&
        st.fs.existsP (destPath cfg.inRoot cfg.outRoot e.path)) = true := by
      rw [hSkip, Bool.true_and]
      exact hex e (List.mem_cons_self e l)
    rw [List.foldl_cons, processEntry_skip_eq pil cfg st e hc hsk, ih]
    · simp [List.length_cons]
      omega
    · intro e2 he2
      exact hcand e2 (List.mem_cons_of_mem e he2)
    · intro e2 he2
      simpa using hex e2 (List.mem_cons_of_mem e he2)

theorem tallyWF_init (fs : FS) : tallyWF (initState fs) := by
  refine ⟨rfl, rfl, rfl, rfl⟩

theorem skipInv_init (fs : FS) : skipInv fs (initState fs) := by
  refine ⟨⟨[], rfl, by simp⟩, ?_⟩
  intro ev hev
  exact absurd hev (List.not_mem_nil ev)

theorem fsExtends_existsP (fs0 fs1 : FS) (p : Path) (h : fsExtends fs0 fs1)
    (hex : fs0.existsP p = true) : fs1.existsP p = true := by
  rcases h with ⟨ex, hent, _⟩
  simp only [FS.existsP] at hex ⊢
  rw [hent, List.any_append, hex]
  simp

theorem candidatesOf_extends (fs0 fs1 : FS) (root : Path) (h : fsExtends fs0 fs1) :
    candidatesOf fs1 root = candidatesOf fs0 root := by
  rcases h with ⟨ex, hent, hexc⟩
  unfold candidatesOf entriesUnder
  rw [hent, List.filter_append]
  have hnil : (ex.filter (fun e => underRoot root e.path)).filter candB = [] := by
    refine List.filter_eq_nil_iff.mpr ?_
    intro e he
    have := hexc e (List.mem_of_mem_filter he)
    simp [this]
  rw [List.filter_append, hnil, List.nil_append]

theorem candidatesOf_cand (fs : FS) (root : Path) (e : Entry)
    (h : e ∈ candidatesOf fs root) : candB e = true :=
  List.of_mem_filter h

theorem candidatesOf_under (fs : FS) (root : Path) (e : Entry)
    (h : e ∈ candidatesOf fs root) : underRoot root e.path = true := by
  have h2 : e ∈ fs.entries.filter (fun e => underRoot root e.path) :=
    List.mem_of_mem_filter h
  have h3 := List.of_mem_filter h2
  exact h3

/-- C9 (corrected): running the tool twice in a row with skip-existing
enabled over an unchanged input tree, provided the first run completed
with no failures, makes the second run skip everything: its skipped
count is the first run's skipped plus converted counts, and its
converted and failed counts are zero. -/
theorem second_run_all_skipped (pil : PIL) (cfg : Config) (fs0 : FS)
    (hSkip : cfg.skipExisting = true)
    (hfatal : (run pil cfg fs0).fatal = none)
    (hfail : (run pil cfg fs0).failed = 0) :
    (run pil cfg (run pil cfg fs0).fs).total = (run pil cfg fs0).total ∧
    (run pil cfg (run pil cfg fs0).fs).skipped =
      (run pil cfg fs0).skipped + (run pil cfg fs0).converted ∧
    (run pil cfg (run pil cfg fs0).fs).converted = 0 ∧
    (run pil cfg (run pil cfg fs0).fs).failed = 0 := by
  have hroot := run_fatal_none_root pil cfg fs0 hfatal
  have hrun1 := run_eq_candidates pil cfg fs0 hroot
  have hfail1 : (runState pil cfg fs0).failed = 0 := by
    rw [hrun1] at hfail
    exact hfail
  have hcand : ∀ e ∈ candidatesOf fs0 cfg.inRoot, candB e = true :=
    fun e he => candidatesOf_cand fs0 cfg.inRoot e he
  have hunder : ∀ e ∈ candidatesOf fs0 cfg.inRoot, underRoot cfg.inRoot e.path = true :=
    fun e he => candidatesOf_under fs0 cfg.inRoot e he
  have hSWF : tallyWF (runState pil cfg fs0) :=
    foldl_tallyWF pil cfg (candidatesOf fs0 cfg.inRoot) (initState fs0) (tallyWF_init fs0)
  have hInv : skipInv fs0 (runState pil cfg fs0) :=
    foldl_skipInv pil cfg fs0 hSkip (candidatesOf fs0 cfg.inRoot) (initState fs0) hunder
      (skipInv_init fs0)
  have hnofail : ∀ ev ∈ (runState pil cfg fs0).events, isFailEv ev = false := by
    apply countEv_zero_of_none
    have hf := hSWF.2.2.2
    rw [← hf]
    exact hfail1
  have hdstex : ∀ e ∈ candidatesOf fs0 cfg.inRoot,
      (runState pil cfg fs0).fs.existsP (destPath cfg.inRoot cfg.outRoot e.path) = true := by
    intro e he
    have hmapped : (runState pil cfg fs0).events.map evSrcDst =
        (initState fs0).events.map evSrcDst ++
          ((candidatesOf fs0 cfg.inRoot).filter candB).map
            (fun e => (e.path, destPath cfg.inRoot cfg.outRoot e.path)) :=
      foldl_srcdst pil cfg (candidatesOf fs0 cfg.inRoot) (initState fs0)
    rw [List.filter_eq_self.mpr hcand] at hmapped
    have hmem : (e.path, destPath cfg.inRoot cfg.outRoot e.path) ∈
        (runState pil cfg fs0).events.map evSrcDst := by
      rw [hmapped]
      refine List.mem_append.mpr (Or.inr ?_)
      exact List.mem_map_of_mem _ he
    rcases List.mem_map.mp hmem with ⟨ev, hevmem, hevq⟩
    have hdst_eq : evDst ev = destPath cfg.inRoot cfg.outRoot e.path := by
      have := congrArg Prod.snd hevq
      simpa [evSrcDst] using this
    rcases hInv.2 ev hevmem with hisfail | hexq
    · rw [hnofail ev hevmem] at hisfail
      exact absurd hisfail (by decide)
    · rw [← hdst_eq]
      exact hexq
  have hroot2 : (runState pil cfg fs0).fs.existsP cfg.inRoot = true :=
    fsExtends_existsP fs0 (runState pil cfg fs0).fs cfg.inRoot hInv.1 hroot
  have hrun2 := run_eq_candidates pil cfg (runState pil cfg fs0).fs hroot2
  have hcands2 : candidatesOf (runState pil cfg fs0).fs cfg.inRoot =
      candidatesOf fs0 cfg.inRoot :=
    candidatesOf_extends fs0 (runState pil cfg fs0).fs cfg.inRoot hInv.1
  have hS2 : runState pil cfg (runState pil cfg fs0).fs =
      { initState (runState pil cfg fs0).fs with
          total := 0 + (candidatesOf fs0 cfg.inRoot).length
          skipped := 0 + (candidatesOf fs0 cfg.inRoot).length
          events := [] ++ (candidatesOf fs0 cfg.inRoot).map
            (fun e => Event.skipped e.path (destPath cfg.inRoot cfg.outRoot e.path)) } := by
    have hre : runState pil cfg (runState pil cfg fs0).fs =
        (candidatesOf fs0 cfg.inRoot).foldl (processEntry pil cfg)
          (initState (runState pil cfg fs0).fs) := by
      show (candidatesOf (runState pil cfg fs0).fs cfg.inRoot).foldl (processEntry pil cfg)
          (initState (runState pil cfg fs0).fs) = _
      rw [hcands2]
    rw [hre]
    exact foldl_allskip pil cfg hSkip (candidatesOf fs0 cfg.inRoot)
      (initState (runState pil cfg fs0).fs) hcand
      (fun e he => hdstex e he)
  have hS1total : (runState pil cfg fs0).total = (candidatesOf fs0 cfg.inRoot).length := by
    have ht := foldl_total pil cfg (candidatesOf fs0 cfg.inRoot) (initState fs0)
    rw [List.filter_eq_self.mpr hcand] at ht
    simpa [initState] using ht
  have hsum : (runState pil cfg fs0).converted + (runState pil cfg fs0).skipped +
      (runState pil cfg fs0).failed = (runState pil cfg fs0).total := by
    obtain ⟨ht, hcv, hsp, hfl⟩ := hSWF
    rw [ht, hcv, hsp, hfl]
    exact countEv_parts (runState pil cfg fs0).events
  rw [hrun1, hrun2]
  simp only [hS2, initState]
  simp only [hfail1, hS1total] at hsum ⊢
  refine ⟨?_, ?_, ?_, ?_⟩ <;> first | trivial | omega

theorem normalizeMode_ok_mode (pil : PIL) (im im2 : Image)
    (h : normalizeMode pil im = Except.ok im2) :
    im2.mode = "RGB" ∨ im2.mode = "RGBA" := by
  unfold normalizeMode at h
  by_cases hm : im.mode = "RGB" ∨ im.mode = "RGBA"
  · rw [if_pos hm] at h
    have : im = im2 := by
      cases h
      rfl
    rw [← this]
    exact hm
  · rw [if_neg hm] at h
    cases hc : pil.convertPayload im with
    | error m =>
      rw [hc] at h
      simp [Except.map] at h
    | ok c =>
      rw [hc] at h
      simp only [Except.map, Except.ok.injEq] at h
      rw [← h]
      exact Or.inl rfl

theorem convert_one_encoded (pil : PIL) (fs : FS) (src dst : Path) (im2 : Image)
    (h : (convert_one pil fs src dst).encoded = some im2) :
    ∃ im1, normalizeMode pil im1 = Except.ok im2 := by
  by_cases hmk : mkdirOk fs dst.dropLast = true
  · cases hopen : pil.openImg src with
    | error m =>
      rw [convert_one, if_pos hmk, hopen] at h
      simp at h
    | ok im0 =>
      cases hnorm : normalizeMode pil (seekFirstFrame pil im0) with
      | error m =>
        rw [convert_one, if_pos hmk, hopen] at h
        simp only [hnorm] at h
        simp at h
      | ok imn =>
        cases henc : pil.encodePNG imn with
        | error m =>
          rw [convert_one, if_pos hmk, hopen] at h
          simp only [hnorm, henc, Option.some.injEq] at h
          exact ⟨seekFirstFrame pil im0, by rw [hnorm, h]⟩
        | ok png =>
          rw [convert_one, if_pos hmk, hopen] at h
          simp only [hnorm, henc, Option.some.injEq] at h
          exact ⟨seekFirstFrame pil im0, by rw [hnorm, h]⟩
  · have hmk2 : mkdirOk fs dst.dropLast = false := Bool.eq_false_iff.mpr hmk
    rw [convert_one, hmk2] at h
    simp at h

/-- C1 (corrected): `run` fails fatally if and only if the input root does
not exist at all (the code tests `exists()`, not `is_dir()`); in that
case nothing is processed, the fatal message names the missing path (as a
suffix of the message), no summary is emitted, the exit status is the
error status 1, and the filesystem — in particular the output root — is
untouched. -/
theorem run_fatal_iff_root_missing (pil : PIL) (cfg : Config) (fs0 : FS) :
    ((run pil cfg fs0).fatal ≠ none ↔ fs0.existsP cfg.inRoot = false) ∧
    (fs0.existsP cfg.inRoot = false →
      run pil cfg fs0 =
        ⟨some (fatalMsg cfg.inRoot), fs0, 0, 0, 0, 0, [], [], [], false, 1⟩) ∧
    (pathStr cfg.inRoot).data <:+ (fatalMsg cfg.inRoot).data := by
  refine ⟨?_, ?_, ?_⟩
  · cases hex : fs0.existsP cfg.inRoot
    · simp [run, hex]
    · rw [run_eq_candidates pil cfg fs0 hex]
      simp
  · intro hex
    simp [run, hex]
  · exact ⟨("[ERROR] Input dir not found: ").data, (String.data_append _ _).symm⟩

/-- C1 counterexample: an input root that exists as a regular file is not
a directory, yet the run is not fatal — it emits its summary and exits
with status 0. -/
theorem run_rootfile_not_fatal :
    FS.isDir fsRootFile ["in"] = false ∧
    (run pilStub cfg1 fsRootFile).fatal = none ∧
    (run pilStub cfg1 fsRootFile).summaryEmitted = true ∧
    (run pilStub cfg1 fsRootFile).exitCode = 0 := by
  decide

theorem run_fatal_iff_root_missing_witness :
    FS.existsP (FS.mk []) cfg1.inRoot = false ∧
    (run pilStub cfg1 (FS.mk [])).fatal ≠ none ∧
    run pilStub cfg1 (FS.mk []) =
      ⟨some (fatalMsg cfg1.inRoot), FS.mk [], 0, 0, 0, 0, [], [], [], false, 1⟩ := by
  have h := run_fatal_iff_root_missing pilStub cfg1 (FS.mk [])
  have hex : FS.existsP (FS.mk []) cfg1.inRoot = false := by decide
  exact ⟨hex, h.1.mpr hex, h.2.1 hex⟩

/-- C2 (confirmed): whenever a run reaches the summary, the four
tallies (natural numbers) satisfy converted + skipped + failed = total;
the trace has exactly one event per counted candidate and each counter
counts the events of its kind, and each processed candidate raises total
and exactly one of the other three counters by one. -/
theorem run_tally_partition (pil : PIL) (cfg : Config) (fs0 : FS)
    (h : (run pil cfg fs0).summaryEmitted = true) :
    (run pil cfg fs0).converted + (run pil cfg fs0).skipped + (run pil cfg fs0).failed =
      (run pil cfg fs0).total ∧
    (run pil cfg fs0).total = (run pil cfg fs0).events.length ∧
    (run pil cfg fs0).converted = countEv isConvEv (run pil cfg fs0).events ∧
    (run pil cfg fs0).skipped = countEv isSkipEv (run pil cfg fs0).events ∧
    (run pil cfg fs0).failed = countEv isFailEv (run pil cfg fs0).events ∧
    (∀ st e, candB e = true →
      (processEntry pil cfg st e).total = st.total + 1 ∧
      (processEntry pil cfg st e).converted + (processEntry pil cfg st e).skipped +
          (processEntry pil cfg st e).failed =
        st.converted + st.skipped + st.failed + 1) := by
  have hroot := run_summary_root pil cfg fs0 h
  rw [run_eq_candidates pil cfg fs0 hroot]
  have hWF : tallyWF (runState pil cfg fs0) :=
    foldl_tallyWF pil cfg (candidatesOf fs0 cfg.inRoot) (initState fs0) (tallyWF_init fs0)
  obtain ⟨ht, hcv, hsp, hfl⟩ := hWF
  refine ⟨?_, ht, hcv, hsp, hfl, ?_⟩
  · rw [ht, hcv, hsp, hfl]
    exact countEv_parts (runState pil cfg fs0).events
  · intro st e hcand
    rcases processEntry_shape pil cfg st e with ⟨hc2, _⟩ |
      ⟨_, ⟨_, hrec⟩ | ⟨_, ⟨_, hrec⟩ | ⟨stg, m, _, hrec⟩⟩⟩
    · rw [hcand] at hc2
      exact absurd hc2 (by decide)
    · rw [hrec]
      constructor <;> simp <;> omega
    · rw [hrec]
      constructor <;> simp <;> omega
    · rw [hrec]
      constructor <;> simp <;> omega

theorem run_tally_partition_witness :
    (run pilOpenFail cfg1 fsMixed).summaryEmitted = true ∧
    (run pilOpenFail cfg1 fsMixed).converted + (run pilOpenFail cfg1 fsMixed).skipped +
        (run pilOpenFail cfg1 fsMixed).failed =
      (run pilOpenFail cfg1 fsMixed).total :=
  ⟨by decide, (run_tally_partition pilOpenFail cfg1 fsMixed (by decide)).1⟩

/-- C3 (confirmed): when the run is not fatal, the total tally equals
exactly the number of regular-file entries below the input root whose
extension is .tif or .tiff case-insensitively, and an entry that is not
such a file leaves the loop state completely unchanged. -/
theorem run_total_counts_tiff_files (pil : PIL) (cfg : Config) (fs0 : FS)
    (h : (run pil cfg fs0).fatal = none) :
    (run pil cfg fs0).total =
      (fs0.entries.filter (fun e =>
        underRoot cfg.inRoot e.path && (e.isFile && isTiffPath e.path))).length ∧
    (∀ st e, (e.isFile && isTiffPath e.path) = false → processEntry pil cfg st e = st) := by
  have hroot := run_fatal_none_root pil cfg fs0 h
  rw [run_eq_candidates pil cfg fs0 hroot]
  constructor
  · have ht : (runState pil cfg fs0).total =
        (initState fs0).total + ((candidatesOf fs0 cfg.inRoot).filter candB).length :=
      foldl_total pil cfg (candidatesOf fs0 cfg.inRoot) (initState fs0)
    rw [List.filter_eq_self.mpr (fun e he => candidatesOf_cand fs0 cfg.inRoot e he)] at ht
    have hlen : (candidatesOf fs0 cfg.inRoot).length =
        (fs0.entries.filter (fun e =>
          underRoot cfg.inRoot e.path && (e.isFile && isTiffPath e.path))).length := by
      unfold candidatesOf entriesUnder
      rw [List.filter_filter]
      congr 1
      apply List.filter_congr
      intro e _
      cases h1 : underRoot cfg.inRoot e.path <;>
        cases h2 : e.isFile <;>
        cases h3 : isTiffPath e.path <;>
        simp [candB, h1, h2, h3]
    rw [ht, hlen]
    simp [initState]
  · intro st e hne
    exact processEntry_noncand pil cfg st e hne

theorem run_total_counts_tiff_files_witness :
    (run pilStub cfg1 fsTree).fatal = none ∧
    (run pilStub cfg1 fsTree).total =
      (fsTree.entries.filter (fun e =>
        underRoot cfg1.inRoot e.path && (e.isFile && isTiffPath e.path))).length :=
  ⟨by decide, (run_total_counts_tiff_files pilStub cfg1 fsTree (by decide)).1⟩

/-- C4 (confirmed): the destination of a candidate below the input root
is the output root joined with the candidate's path relative to the
input root with its extension replaced by `.png` (the spec-side mirror
definition); in particular R/a/b/img.tiff maps to O/a/b/img.png. -/
theorem destPath_mirrors_spec (inRoot outRoot p : Path)
    (hU : underRoot inRoot p = true) (hT : isTiffPath p = true) :
    destPath inRoot outRoot p = specMirrorDest inRoot outRoot p ∧
    destPath ["R"] ["O"] ["R", "a", "b", "img.tiff"] = ["O", "a", "b", "img.png"] := by
  constructor
  · rcases destPath_eq inRoot outRoot p hU with ⟨name, hrel, hlastp, hdest⟩
    have hTn : isTiffName name = true := by
      unfold isTiffPath at hT
      rw [hlastp] at hT
      exact hT
    have hsuffne : ¬(suffixChars name.data = []) := by
      intro hnil
      unfold isTiffName at hTn
      rw [hnil] at hTn
      exact absurd hTn (by decide)
    rw [hdest]
    simp only [specMirrorDest]
    rw [hrel]
    have hws : withSuffix name ".png" =
        String.mk (stripSuffixChars name.data ++ (".png").data) := by
      simp only [withSuffix, withSuffixChars, stripSuffixChars]
      rw [if_neg hsuffne]
    rw [hws]
  · decide

theorem destPath_mirrors_spec_witness :
    underRoot ["R"] ["R", "a", "b", "img.tiff"] = true ∧
    isTiffPath ["R", "a", "b", "img.tiff"] = true ∧
    destPath ["R"] ["O"] ["R", "a", "b", "img.tiff"] = ["O", "a", "b", "img.png"] :=
  ⟨by decide, by decide,
    (destPath_mirrors_spec ["R"] ["O"] ["R", "a", "b", "img.tiff"]
      (by decide) (by decide)).2⟩

/-- C5 (confirmed): with skip-existing enabled, a candidate whose
destination already exists as a file only increments total and skipped
and records a skip event; the filesystem is unchanged (so the existing
destination's content is untouched), the source is never opened, nothing
is logged, and the loop goes on to the next candidate. -/
theorem skip_existing_no_touch (pil : PIL) (cfg : Config) (st : RunState) (e : Entry)
    (hSkip : cfg.skipExisting = true)
    (hfile : e.isFile = true) (htiff : isTiffPath e.path = true)
    (hdst : st.fs.isFile (destPath cfg.inRoot cfg.outRoot e.path) = true) :
    processEntry pil cfg st e =
      { st with
          total := st.total + 1
          skipped := st.skipped + 1
          events := st.events ++
            [Event.skipped e.path (destPath cfg.inRoot cfg.outRoot e.path)] } ∧
    (processEntry pil cfg st e).fs = st.fs ∧
    (processEntry pil cfg st e).openedSrcs = st.openedSrcs ∧
    (processEntry pil cfg st e).log = st.log ∧
    (processEntry pil cfg st e).fs.read? (destPath cfg.inRoot cfg.outRoot e.path) =
      st.fs.read? (destPath cfg.inRoot cfg.outRoot e.path) := by
  have hc : candB e = true := by simp [candB, hfile, htiff]
  have hsk : (cfg.skipExisting &&
      st.fs.existsP (destPath cfg.inRoot cfg.outRoot e.path)) = true := by
    rw [hSkip, Bool.true_and]
    exact FS.existsP_of_isFile _ _ hdst
  have hrec := processEntry_skip_eq pil cfg st e hc hsk
  exact ⟨hrec, by rw [hrec], by rw [hrec], by rw [hrec], by rw [hrec]⟩

theorem skip_existing_no_touch_witness :
    stTree.fs.isFile (destPath cfg1.inRoot cfg1.outRoot ["in", "b.tiff"]) = true ∧
    (processEntry pilStub cfg1 stTree ⟨["in", "b.tiff"], true, 8⟩).fs = stTree.fs ∧
    (processEntry pilStub cfg1 stTree ⟨["in", "b.tiff"], true, 8⟩).openedSrcs =
      stTree.openedSrcs :=
  ⟨by decide,
    (skip_existing_no_touch pilStub cfg1 stTree ⟨["in", "b.tiff"], true, 8⟩
      rfl rfl (by decide) (by decide)).2.1,
    (skip_existing_no_touch pilStub cfg1 stTree ⟨["in", "b.tiff"], true, 8⟩
      rfl rfl (by decide) (by decide)).2.2.1⟩

/-- C6 (confirmed): a candidate whose conversion raises increments failed
by exactly one and appends exactly one diagnostic line, which contains
the rendered source path, the rendered destination path and the error
detail; the loop keeps folding over the remaining candidates, a run that
reaches the summary has processed every candidate (one event each), and
normal completion exits with status 0 regardless of the failed count. -/
theorem failure_counted_logged_continues (pil : PIL) (cfg : Config) (st : RunState)
    (e : Entry) (stg : ConvStage) (m : String) (fs0 : FS) :
    (candB e = true →
      (cfg.skipExisting && st.fs.existsP (destPath cfg.inRoot cfg.outRoot e.path)) = false →
      (convert_one pil st.fs e.path (destPath cfg.inRoot cfg.outRoot e.path)).outcome =
        ConvOutcome.err stg m →
      processEntry pil cfg st e =
        { st with
            fs := (convert_one pil st.fs e.path (destPath cfg.inRoot cfg.outRoot e.path)).fs
            total := st.total + 1
            failed := st.failed + 1
            events := st.events ++
              [Event.failed e.path (destPath cfg.inRoot cfg.outRoot e.path) m]
            log := st.log ++ [failLine e.path (destPath cfg.inRoot cfg.outRoot e.path) m]
            openedSrcs := st.openedSrcs ++
              (if (convert_one pil st.fs e.path
                    (destPath cfg.inRoot cfg.outRoot e.path)).opened
               then [e.path] else []) }) ∧
    (pathStr e.path).data <:+:
      (failLine e.path (destPath cfg.inRoot cfg.outRoot e.path) m).data ∧
    (pathStr (destPath cfg.inRoot cfg.outRoot e.path)).data <:+:
      (failLine e.path (destPath cfg.inRoot cfg.outRoot e.path) m).data ∧
    m.data <:+: (failLine e.path (destPath cfg.inRoot cfg.outRoot e.path) m).data ∧
    ((run pil cfg fs0).fatal = none →
      (run pil cfg fs0).exitCode = 0 ∧
      (run pil cfg fs0).events.length = (run pil cfg fs0).total) := by
  refine ⟨?_, ?_, ?_, ?_, ?_⟩
  · intro hc hsk hout
    simp [processEntry, processCand, hc, hsk, hout]
  · exact ⟨("[FAIL] ").data,
      ((" -> ").data ++ (pathStr (destPath cfg.inRoot cfg.outRoot e.path)).data ++
        (" | ").data ++ m.data),
      by simp [failLine, String.data_append]⟩
  · exact ⟨("[FAIL] ").data ++ (pathStr e.path).data ++ (" -> ").data,
      ((" | ").data ++ m.data),
      by simp [failLine, String.data_append]⟩
  · exact ⟨("[FAIL] ").data ++ (pathStr e.path).data ++ (" -> ").data ++
      (pathStr (destPath cfg.inRoot cfg.outRoot e.path)).data ++ (" | ").data,
      [],
      by simp [failLine, String.data_append]⟩
  · intro hfatal
    have hroot := run_fatal_none_root pil cfg fs0 hfatal
    rw [run_eq_candidates pil cfg fs0 hroot]
    have hWF : tallyWF (runState pil cfg fs0) :=
      foldl_tallyWF pil cfg (candidatesOf fs0 cfg.inRoot) (initState fs0) (tallyWF_init fs0)
    exact ⟨rfl, hWF.1.symm⟩

theorem failure_counted_logged_continues_witness :
    (convert_one pilOpenFail (initState fsMixed).fs ["in", "a.tif"]
        (destPath cfg1.inRoot cfg1.outRoot ["in", "a.tif"])).outcome =
      ConvOutcome.err ConvStage.openStage "cannot identify image file" ∧
    (run pilOpenFail cfg1 fsMixed).exitCode = 0 ∧
    (run pilOpenFail cfg1 fsMixed).events.length = (run pilOpenFail cfg1 fsMixed).total ∧
    (processEntry pilOpenFail cfg1 (initState fsMixed) ⟨["in", "a.tif"], true, 7⟩).log =
      (initState fsMixed).log ++
        [failLine ["in", "a.tif"] (destPath cfg1.inRoot cfg1.outRoot ["in", "a.tif"])
          "cannot identify image file"] := by
  have h := failure_counted_logged_continues pilOpenFail cfg1 (initState fsMixed)
    ⟨["in", "a.tif"], true, 7⟩ ConvStage.openStage "cannot identify image file" fsMixed
  refine ⟨by decide, (h.2.2.2.2 (by decide)).1, (h.2.2.2.2 (by decide)).2, ?_⟩
  have hrec := h.1 (by decide) (by decide) (by decide)
  rw [hrec]

/-- C7 (confirmed): the normalization step leaves an image whose mode is
plain RGB or RGB-with-alpha untouched (no mode conversion), converts any
other mode to plain RGB, and therefore every image handed to the PNG
encoder by convert_one has mode RGB or RGBA; moreover, when the decoded
and seeked image is already RGB or RGBA, convert_one performs no mode
conversion at all. -/
theorem normalize_mode_rgb (pil : PIL) (im : Image) :
    ((im.mode = "RGB" ∨ im.mode = "RGBA") → normalizeMode pil im = Except.ok im) ∧
    (¬(im.mode = "RGB" ∨ im.mode = "RGBA") →
      (∀ c, pil.convertPayload im = Except.ok c →
        normalizeMode pil im = Except.ok ⟨"RGB", c⟩) ∧
      (∀ im2, normalizeMode pil im = Except.ok im2 → im2.mode = "RGB")) ∧
    (∀ fs src dst im2, (convert_one pil fs src dst).encoded = some im2 →
      im2.mode = "RGB" ∨ im2.mode = "RGBA") ∧
    (∀ fs src dst im0, pil.openImg src = Except.ok im0 →
      ((seekFirstFrame pil im0).mode = "RGB" ∨ (seekFirstFrame pil im0).mode = "RGBA") →
      (convert_one pil fs src dst).modeConv = false) := by
  refine ⟨?_, ?_, ?_, ?_⟩
  · intro hm
    simp [normalizeMode, hm]
  · intro hm
    constructor
    · intro c hc
      simp [normalizeMode, hm, hc, Except.map]
    · intro im2 h2
      have := normalizeMode_ok_mode pil im im2 h2
      rcases this with h | h
      · exact h
      · exfalso
        unfold normalizeMode at h2
        rw [if_neg hm] at h2
        cases hc : pil.convertPayload im with
        | error m2 =>
          rw [hc] at h2
          simp [Except.map] at h2
        | ok c =>
          rw [hc] at h2
          simp only [Except.map, Except.ok.injEq] at h2
          rw [← h2] at h
          simp at h
  · intro fs src dst im2 h
    rcases convert_one_encoded pil fs src dst im2 h with ⟨im1, hnorm⟩
    exact normalizeMode_ok_mode pil im1 im2 hnorm
  · intro fs src dst im0 hopen hm
    by_cases hmk : mkdirOk fs dst.dropLast = true
    · have hmc : (!((seekFirstFrame pil im0).mode == "RGB" ||
          (seekFirstFrame pil im0).mode == "RGBA")) = false := by
        rcases hm with h | h <;> simp [h]
      cases hnorm : normalizeMode pil (seekFirstFrame pil im0) with
      | error m2 =>
        rw [convert_one, if_pos hmk, hopen]
        simp only [hnorm, hmc]
      | ok imn =>
        cases henc : pil.encodePNG imn with
        | error m2 =>
          rw [convert_one, if_pos hmk, hopen]
          simp only [hnorm, henc, hmc]
        | ok png =>
          rw [convert_one, if_pos hmk, hopen]
          simp only [hnorm, henc, hmc]
    · have hmk2 : mkdirOk fs dst.dropLast = false := Bool.eq_false_iff.mpr hmk
      rw [convert_one, hmk2]
      simp

theorem normalize_mode_rgb_witness :
    normalizeMode pilStub ⟨"RGB", 5⟩ = Except.ok ⟨"RGB", 5⟩ ∧
    normalizeMode pilStub ⟨"P", 5⟩ = Except.ok ⟨"RGB", 105⟩ ∧
    (convert_one pilStub fsTree ["in", "a", "x.TIF"] ["out", "a", "x.png"]).encoded =
      some ⟨"RGB", 105⟩ ∧
    ((convert_one pilStub fsTree ["in", "a", "x.TIF"] ["out", "a", "x.png"]).encoded.map
      Image.mode = some "RGB") := by
  have h1 := (normalize_mode_rgb pilStub ⟨"RGB", 5⟩).1 (Or.inl rfl)
  have h2 := (normalize_mode_rgb pilStub ⟨"P", 5⟩).2.1 (by decide)
  exact ⟨h1, h2.1 105 rfl, by decide, by decide⟩

/-- C8 (confirmed): first-frame selection is best-effort: a failing seek
leaves the decoded image unchanged, and a Pillow oracle whose seek always
fails makes convert_one behave exactly as one whose seek is the identity
— the seek failure is swallowed, never surfaced as a conversion
failure. -/
theorem seek_first_best_effort (pil : PIL) (im : Image) (m : String) :
    (pil.seekFirst im = Except.error m → seekFirstFrame pil im = im) ∧
    ((∀ i, ∃ m2, pil.seekFirst i = Except.error m2) →
      ∀ fs src dst, convert_one pil fs src dst =
        convert_one { pil with seekFirst := fun i => Except.ok i } fs src dst) := by
  constructor
  · intro h
    unfold seekFirstFrame
    rw [h]
  · intro hall fs src dst
    have hseek : ∀ i, seekFirstFrame pil i = i := by
      intro i
      rcases hall i with ⟨m2, h2⟩
      unfold seekFirstFrame
      rw [h2]
    have hseek2 : ∀ i,
        seekFirstFrame { pil with seekFirst := fun i => Except.ok i } i = i := by
      intro i
      rfl
    simp only [convert_one, hseek, hseek2, normalizeMode]

theorem seek_first_best_effort_witness :
    seekFirstFrame pilSeekFail ⟨"P", 5⟩ = ⟨"P", 5⟩ ∧
    convert_one pilSeekFail fsTree ["in", "a", "x.TIF"] ["out", "a", "x.png"] =
      convert_one { pilSeekFail with seekFirst := fun i => Except.ok i } fsTree
        ["in", "a", "x.TIF"] ["out", "a", "x.png"] := by
  have h := seek_first_best_effort pilSeekFail ⟨"P", 5⟩ "seek not supported"
  exact ⟨h.1 rfl, h.2 (fun i => ⟨"seek not supported", rfl⟩) fsTree
    ["in", "a", "x.TIF"] ["out", "a", "x.png"]⟩

/-- C9 counterexample: over a tree with one candidate whose output
pre-exists and one whose conversion fails, the second run's skipped
count differs from the first run's converted count and its failed count
is not zero, contradicting the claim as stated. -/
theorem second_run_counterexample :
    (run pilOpenFail cfg1 (run pilOpenFail cfg1 fsMixed).fs).skipped ≠
      (run pilOpenFail cfg1 fsMixed).converted ∧
    (run pilOpenFail cfg1 (run pilOpenFail cfg1 fsMixed).fs).converted = 0 ∧
    (run pilOpenFail cfg1 (run pilOpenFail cfg1 fsMixed).fs).failed ≠ 0 := by
  decide

theorem second_run_all_skipped_witness :
    cfg1.skipExisting = true ∧
    (run pilStub cfg1 fsTree).fatal = none ∧
    (run pilStub cfg1 fsTree).failed = 0 ∧
    ((run pilStub cfg1 (run pilStub cfg1 fsTree).fs).total =
        (run pilStub cfg1 fsTree).total ∧
      (run pilStub cfg1 (run pilStub cfg1 fsTree).fs).skipped =
        (run pilStub cfg1 fsTree).skipped + (run pilStub cfg1 fsTree).converted ∧
      (run pilStub cfg1 (run pilStub cfg1 fsTree).fs).converted = 0 ∧
      (run pilStub cfg1 (run pilStub cfg1 fsTree).fs).failed = 0) :=
  ⟨rfl, by decide, by decide,
    second_run_all_skipped pilStub cfg1 fsTree rfl (by decide) (by decide)⟩

/-- C10 (corrected): convert_one ensures the destination's parent chain
before opening the source (if the source was opened, directory creation
succeeded); whenever directory creation succeeds — in particular in
every attempt that fails at decode, mode conversion, or encode — every
link of the parent chain is a directory afterwards; but when a regular
file blocks the chain, directory creation itself fails, the attempt is a
failure with the filesystem unchanged, and the source is never
opened. -/
theorem convert_one_mkdir_first (pil : PIL) (fs : FS) (src dst : Path) :
    ((convert_one pil fs src dst).opened = true → mkdirOk fs dst.dropLast = true) ∧
    (mkdirOk fs dst.dropLast = true →
      ∀ q ∈ pathPrefixes dst.dropLast, (convert_one pil fs src dst).fs.isDir q = true) ∧
    (∀ stg m, (convert_one pil fs src dst).outcome = ConvOutcome.err stg m →
      stg ≠ ConvStage.mkdirStage →
      ∀ q ∈ pathPrefixes dst.dropLast, (convert_one pil fs src dst).fs.isDir q = true) ∧
    (mkdirOk fs dst.dropLast = false →
      convert_one pil fs src dst =
        ⟨fs, ConvOutcome.err ConvStage.mkdirStage "mkdir: parent chain blocked by a file",
          false, none, false⟩) := by
  have hblocked : mkdirOk fs dst.dropLast = false →
      convert_one pil fs src dst =
        ⟨fs, ConvOutcome.err ConvStage.mkdirStage "mkdir: parent chain blocked by a file",
          false, none, false⟩ := by
    intro hmk
    simp [convert_one, hmk]
  refine ⟨?_, ?_, ?_, hblocked⟩
  · intro hop
    cases hmk : mkdirOk fs dst.dropLast
    · rw [hblocked hmk] at hop
      simp at hop
    · rfl
  · intro hmk q hq
    exact convert_one_isDir pil fs src dst hmk q hq
  · intro stg m hout hstg q hq
    cases hmk : mkdirOk fs dst.dropLast
    · exfalso
      rw [hblocked hmk] at hout
      cases stg
      · exact hstg rfl
      · simp at hout
      · simp at hout
      · simp at hout
    · exact convert_one_isDir pil fs src dst hmk q hq

/-- C10 counterexample: with a regular file at out/a blocking the parent
chain, the conversion attempt of in/x.tif towards out/a/x.png fails and
afterwards out/a is still not a directory, contradicting "after every
conversion attempt the destination's parent directories exist". -/
theorem mkdir_blocked_counterexample :
    (convert_one pilStub fsBlocked ["in", "x.tif"] ["out", "a", "x.png"]).outcome =
      ConvOutcome.err ConvStage.mkdirStage "mkdir: parent chain blocked by a file" ∧
    (convert_one pilStub fsBlocked ["in", "x.tif"] ["out", "a", "x.png"]).fs.isDir
      ["out", "a"] = false ∧
    (convert_one pilStub fsBlocked ["in", "x.tif"] ["out", "a", "x.png"]).opened = false := by
  decide

theorem convert_one_mkdir_first_witness :
    mkdirOk fsBlocked (["out", "a", "x.png"] : Path).dropLast = false ∧
    convert_one pilStub fsBlocked ["in", "x.tif"] ["out", "a", "x.png"] =
      ⟨fsBlocked, ConvOutcome.err ConvStage.mkdirStage
        "mkdir: parent chain blocked by a file", false, none, false⟩ ∧
    (convert_one pilStub fsTree ["in", "a", "x.TIF"] ["out", "a", "x.png"]).fs.isDir
      ["out", "a"] = true :=
  ⟨by decide,
    (convert_one_mkdir_first pilStub fsBlocked ["in", "x.tif"]
      ["out", "a", "x.png"]).2.2.2 (by decide),
    (convert_one_mkdir_first pilStub fsTree ["in", "a", "x.TIF"]
      ["out", "a", "x.png"]).2.1 (by decide) ["out", "a"] (by decide)⟩

end FAR
